import Mathlib

/-!
Verification of the sematrope superoptimizer core (src/sematrope.cc)
against its natural-language specification.

The C++ program builds z3 expressions; here the z3 layer is shallowly
embedded: a bit-vector of width 32 is a `Nat` (all arithmetic explicitly
modulo `2 ^ 32`), a z3 `Int` variable's value is a Lean `Int`, and a
z3 `ite` applied to a concrete assignment is a Lean `if`.  Each
definition mirrors the source function of the same name.
-/

/-- Word width: `REGISTER_WIDTH = 32` in the source; `M = 2 ^ 32` is the
bit-vector modulus. -/
def M : Nat := 2 ^ 32

theorem M_eq : M = 4294967296 := by norm_num [M]

/-- Mirrors `bvConst`: a constant truncated to `REGISTER_WIDTH` bits. -/
def bvConst (x : Nat) : Nat := x % M

/-- Opcode `SUB = 0` (first enumerator of `enum class Opcode`). -/
def Opcode.SUB : Int := 0

/-- Opcode `AND = 1`. -/
def Opcode.AND : Int := 1

/-- Opcode `CMPEQ = 2`. -/
def Opcode.CMPEQ : Int := 2

/-- `LAST = CMPEQ` in the source enumeration. -/
def Opcode.LAST : Int := Opcode.CMPEQ

/-- Mirrors `boolToBv`: `ite(b, bv(1), bv(0))`. -/
def boolToBv (b : Bool) : Nat := if b then 1 else 0

/-- Bit-vector subtraction `a - b` on 32-bit words (z3 bitvector
subtraction, two's complement wraparound). -/
def bvSub (a b : Nat) : Nat := (a + (M - b % M)) % M

/-- A concrete assignment to the four z3 variables of one `SymbolicInsn`
slot: `op`, `r1`, `r2` are integers, `imm` a 32-bit word. -/
structure SlotVal where
  op : Int
  r1 : Int
  r2 : Int
  imm : Nat
deriving DecidableEq, Repr

/-- The `in1` selector cascade of `eval` (lines 97-99): start from
`regs[i]`, and for `j = i-1, …, 0` wrap `ite(r1 == j, regs[j], in1)`;
evaluated under a concrete value of `r1`. -/
def selectIn1 (r1 : Int) (regs : List Nat) (i : Nat) : Nat :=
  (List.range i).foldr (fun (j : Nat) acc => if r1 = (j : Int) then regs.getD j 0 else acc)
    (regs.getD i 0)

/-- The `in2` selector cascade of `eval` (lines 100-102): start from
`imm`, and for `j = i, …, 0` wrap `ite(r2 == j, regs[j], in2)`. -/
def selectIn2 (r2 : Int) (imm : Nat) (regs : List Nat) (i : Nat) : Nat :=
  (List.range (i + 1)).foldr (fun (j : Nat) acc => if r2 = (j : Int) then regs.getD j 0 else acc)
    imm

/-- The opcode dispatch of `eval` (lines 104-106): `SUB` result by
default, overridden by `AND` and then by `CMPEQ`. -/
def opResult (op : Int) (in1 in2 : Nat) : Nat :=
  let result := bvSub in1 in2
  let result := if op = Opcode.AND then in1 &&& in2 else result
  if op = Opcode.CMPEQ then boolToBv (decide (in1 = in2)) else result

/-- One iteration of the loop body of `eval`: the value appended to
`regs` for slot `i`. -/
def evalStep (regs : List Nat) (i : Nat) (s : SlotVal) : Nat :=
  opResult s.op (selectIn1 s.r1 regs i) (selectIn2 s.r2 s.imm regs i)

/-- The register-building loop of `eval`: at each step the slot counter
`i` equals `regs.length - 1` (the loop starts with `regs = [x]`). -/
def evalAux (regs : List Nat) : List SlotVal → List Nat
  | [] => regs
  | s :: rest => evalAux (regs ++ [evalStep regs (regs.length - 1) s]) rest

/-- Mirrors `eval` (lines 93-110) under a concrete assignment of the
slot variables: returns `regs[insns.size()]`. -/
def eval (x : Nat) (insns : List SlotVal) : Nat :=
  (evalAux [x] insns).getD insns.length 0

/-- Mirrors `isPowerOfTwoOrZero` (lines 156-164): the disjunction
`x = 0 ∨ ⋁ x = bvConst(2 ^ i)` over `i < 32`, widened to a bit-vector.
The running variable `p` holds `2 ^ i` at iteration `i`. -/
def isPowerOfTwoOrZero (x : Nat) : Nat :=
  boolToBv ((List.range 32).foldl
    (fun r i => r || decide (x = bvConst (2 ^ i))) (decide (x = 0)))

/- ### Generic lemmas about the selector cascades -/

theorem foldr_ite_range (n : Nat) (f : Nat → Nat) (d : Nat) (r : Int) :
    (List.range n).foldr (fun (j : Nat) acc => if r = (j : Int) then f j else acc) d
      = if 0 ≤ r ∧ r < (n : Int) then f r.toNat else d := by
  induction n generalizing d with
  | zero =>
    simp only [List.range_zero, List.foldr_nil]
    have h : ¬ (0 ≤ r ∧ r < ((0 : Nat) : Int)) := by
      push_cast; omega
    rw [if_neg h]
  | succ n ih =>
    rw [List.range_succ, List.foldr_append, List.foldr_cons, List.foldr_nil,
      ih (if r = (n : Int) then f n else d)]
    by_cases h1 : 0 ≤ r ∧ r < (n : Int)
    · rw [if_pos h1, if_pos (by push_cast; omega)]
    · rw [if_neg h1]
      by_cases h2 : r = (n : Int)
      · subst h2
        rw [if_pos rfl, if_pos (by push_cast; omega)]
        simp
      · rw [if_neg h2, if_neg (by push_cast at h1 h2 ⊢; omega)]

theorem selectIn1_eq (r1 : Int) (regs : List Nat) (i : Nat) :
    selectIn1 r1 regs i
      = if 0 ≤ r1 ∧ r1 < (i : Int) then regs.getD r1.toNat 0 else regs.getD i 0 := by
  unfold selectIn1
  exact foldr_ite_range i (fun j => regs.getD j 0) (regs.getD i 0) r1

theorem selectIn2_eq (r2 : Int) (imm : Nat) (regs : List Nat) (i : Nat) :
    selectIn2 r2 imm regs i
      = if 0 ≤ r2 ∧ r2 < (i : Int) + 1 then regs.getD r2.toNat 0 else imm := by
  unfold selectIn2
  rw [foldr_ite_range (i + 1) (fun j => regs.getD j 0) imm r2]
  have h : (((i + 1 : Nat)) : Int) = (i : Int) + 1 := by push_cast; ring
  rw [h]

/- ### Concrete instructions and the model decoder -/

/-- Mirrors `struct Insn` (lines 41-63): `opcode` is the underlying
integer of the C++ `Opcode` enum (so that the unreachable `abort()`
branch of `toString` stays representable), `r1`/`r2` are C++ `int`s,
`imm` a 64-bit unsigned value. -/
structure Insn where
  opcode : Int
  r1 : Int
  r2 : Int
  isImm : Bool
  imm : Nat
deriving DecidableEq, Repr, Inhabited

/-- Hexadecimal rendering, mirroring `hex` (lines 34-39). -/
def hex (x : Nat) : String := (Nat.toDigits 16 x).asString

/-- Mirrors `Insn::toString` (lines 47-62).  The `default: abort()`
branch of the opcode switch is modelled as `none`. -/
def Insn.toString (insn : Insn) (dest : Nat) : Option String :=
  (if insn.opcode = Opcode.SUB then some "sub"
   else if insn.opcode = Opcode.AND then some "and"
   else if insn.opcode = Opcode.CMPEQ then some "cmpeq"
   else none).map (fun s =>
    s ++ " r" ++ insn.r1.repr ++ ", "
      ++ (if insn.isImm then "0x" ++ hex insn.imm else "r" ++ insn.r2.repr)
      ++ ", r" ++ Nat.repr dest)

/-- The values a (possibly partial) z3 model gives to the four
variables of one slot; `none` models `!e.is_numeral()` (the model
leaves the variable underdetermined). -/
structure SlotModel where
  op : Option Int
  r1 : Option Int
  r2 : Option Int
  imm : Option Nat
deriving DecidableEq, Repr

/-- Mirrors `getIntDefault` (lines 126-128). -/
def getIntDefault (e : Option Int) (d : Int) : Int := e.getD d

/-- Mirrors `getUint64Default` (lines 129-131). -/
def getUint64Default (e : Option Nat) (d : Nat) : Nat := e.getD d

/-- The loop body of `reconstructProgram` (lines 136-151) for slot `i`. -/
def decodeInsn (i : Nat) (m : SlotModel) : Insn :=
  let opcode := getIntDefault m.op 0
  let opcode := if opcode < 0 ∨ opcode > Opcode.LAST then 0 else opcode
  let r1 := getIntDefault m.r1 0
  let r1 := if r1 < 0 ∨ r1 > (i : Int) then (i : Int) else r1
  let r2 := getIntDefault m.r2 0
  if r2 < 0 ∨ r2 > (i : Int) then
    { opcode := opcode, r1 := r1, r2 := 0, isImm := true,
      imm := getUint64Default m.imm 0 }
  else
    { opcode := opcode, r1 := r1, r2 := r2, isImm := false, imm := 0 }

/-- The loop of `reconstructProgram`, with the running slot index. -/
def reconstructAux (i : Nat) : List SlotModel → List Insn
  | [] => []
  | m :: rest => decodeInsn i m :: reconstructAux (i + 1) rest

/-- Mirrors `reconstructProgram` (lines 133-154): decode each slot's
model values into a concrete instruction. -/
def reconstructProgram (slots : List SlotModel) : List Insn :=
  reconstructAux 0 slots

/-- A total assignment seen as a (total) model. -/
def SlotVal.toModel (s : SlotVal) : SlotModel :=
  { op := some s.op, r1 := some s.r1, r2 := some s.r2, imm := some s.imm }

/- ### Concrete instruction semantics -/

/-- Modelled from the spec: the concrete instruction semantics of §3
(the Data Model) and `eval_op` of §4.1, which the repository does not
implement (the C++ program only prints decoded programs).  For the
i-th instruction, operand one is the register `r1`, operand two is the
register `r2` or the immediate, and the opcode semantics are
`SUB(a,b) = a - b` mod `2 ^ 32`, `AND(a,b) = a ∧ b` bitwise,
`CMPEQ(a,b) = widen(a = b)`, with `SUB` for any opcode value outside
the enumeration. -/
def runInsn (regs : List Nat) (insn : Insn) : Nat :=
  let a := regs.getD insn.r1.toNat 0
  let b := if insn.isImm then insn.imm else regs.getD insn.r2.toNat 0
  if insn.opcode = Opcode.CMPEQ then boolToBv (decide (a = b))
  else if insn.opcode = Opcode.AND then a &&& b
  else bvSub a b

/-- Modelled from the spec: running a straight-line program in SSA
form; each instruction appends its result as a fresh register
(register 0 is the input). -/
def runAux (regs : List Nat) : List Insn → List Nat
  | [] => regs
  | insn :: rest => runAux (regs ++ [runInsn regs insn]) rest

/-- Modelled from the spec: `Evaluator_concrete(x, P)` is the last
register after running all instructions on input `x`. -/
def runProgram (x : Nat) (p : List Insn) : Nat :=
  (runAux [x] p).getD p.length 0

/- ### Decoder field lemmas -/

theorem decodeInsn_eq (i : Nat) (s : SlotVal) :
    decodeInsn i s.toModel =
      if s.r2 < 0 ∨ s.r2 > (i : Int) then
        { opcode := if s.op < 0 ∨ s.op > Opcode.LAST then 0 else s.op,
          r1 := if s.r1 < 0 ∨ s.r1 > (i : Int) then (i : Int) else s.r1,
          r2 := 0, isImm := true, imm := s.imm }
      else
        { opcode := if s.op < 0 ∨ s.op > Opcode.LAST then 0 else s.op,
          r1 := if s.r1 < 0 ∨ s.r1 > (i : Int) then (i : Int) else s.r1,
          r2 := s.r2, isImm := false, imm := 0 } := by
  simp only [decodeInsn, SlotVal.toModel, getIntDefault, getUint64Default, Option.getD_some]

/- ### Agreement of the concrete semantics with the symbolic evaluator -/

theorem getD_r1_select (regs : List Nat) (i : Nat) (r1 : Int) :
    regs.getD (if r1 < 0 ∨ r1 > (i : Int) then (i : Int) else r1).toNat 0
      = selectIn1 r1 regs i := by
  rw [selectIn1_eq]
  by_cases h : r1 < 0 ∨ r1 > (i : Int)
  · rw [if_pos h, if_neg (by omega)]
    congr 1
  · rw [if_neg h]
    by_cases h2 : 0 ≤ r1 ∧ r1 < (i : Int)
    · rw [if_pos h2]
    · rw [if_neg h2]
      congr 1
      omega

theorem runInsn_decodeInsn (regs : List Nat) (i : Nat) (s : SlotVal) :
    runInsn regs (decodeInsn i s.toModel) = evalStep regs i s := by
  rw [decodeInsn_eq]
  unfold evalStep opResult
  rw [selectIn2_eq]
  by_cases hr2 : s.r2 < 0 ∨ s.r2 > (i : Int)
  · rw [if_pos hr2, if_neg (show ¬(0 ≤ s.r2 ∧ s.r2 < (i : Int) + 1) by omega)]
    unfold runInsn
    simp only [if_true]
    rw [getD_r1_select regs i s.r1]
    simp only [Opcode.SUB, Opcode.AND, Opcode.CMPEQ, Opcode.LAST]
    split_ifs <;> first | rfl | omega
  · rw [if_neg hr2, if_pos (show 0 ≤ s.r2 ∧ s.r2 < (i : Int) + 1 by omega)]
    unfold runInsn
    simp only [Bool.false_eq_true, if_false]
    rw [getD_r1_select regs i s.r1]
    simp only [Opcode.SUB, Opcode.AND, Opcode.CMPEQ, Opcode.LAST]
    split_ifs <;> first | rfl | omega

theorem reconstructAux_length (i : Nat) (slots : List SlotModel) :
    (reconstructAux i slots).length = slots.length := by
  induction slots generalizing i with
  | nil => rfl
  | cons m rest ih => simp [reconstructAux, ih]

theorem runAux_reconstructAux (σ : List SlotVal) :
    ∀ (regs : List Nat) (i : Nat), regs.length = i + 1 →
      runAux regs (reconstructAux i (σ.map SlotVal.toModel)) = evalAux regs σ := by
  induction σ with
  | nil => intro regs i _; rfl
  | cons s rest ih =>
    intro regs i h
    simp only [List.map_cons, reconstructAux, runAux, evalAux]
    rw [runInsn_decodeInsn regs i s, h]
    simp only [Nat.add_sub_cancel]
    exact ih (regs ++ [evalStep regs i s]) (i + 1) (by simp [h])

/-- Shared agreement lemma: the concrete run of the decoded program
equals the symbolic evaluation under the same total assignment. -/
theorem run_reconstruct_eq_eval (σ : List SlotVal) (x : Nat) :
    runProgram x (reconstructProgram (σ.map SlotVal.toModel)) = eval x σ := by
  unfold runProgram eval reconstructProgram
  rw [runAux_reconstructAux σ [x] 0 rfl]
  congr 1
  rw [reconstructAux_length]
  simp

/- ### Claim C2 -/

/-- C2: Evaluator/decoder agreement.  For every length-N assignment of
the slot variables (op, r1, r2, imm) and every input x, the symbolic
expression built by `eval` under that assignment equals the result of
running the concrete program produced by `reconstructProgram` from the
same assignment under the concrete instruction semantics (SUB/AND/CMPEQ
with the stated defaults); in particular the out-of-range defaults of
`eval` coincide with the decoder's tie-breaks. -/
theorem claim_C2_evaluator_decoder_agreement (σ : List SlotVal) (x : Nat) :
    eval x σ = runProgram x (reconstructProgram (σ.map SlotVal.toModel)) :=
  (run_reconstruct_eq_eval σ x).symm

/- ### Claim C3 -/

theorem foldl_or_eq (l : List Nat) (b : Bool) (f : Nat → Bool) :
    l.foldl (fun r i => r || f i) b = (b || l.any f) := by
  induction l generalizing b with
  | nil => simp
  | cons a t ih =>
    rw [List.foldl_cons, ih (b || f a), List.any_cons, Bool.or_assoc]

theorem pow_lt_M (i : Nat) (hi : i < 32) : 2 ^ i < M := by
  have h : (2 : Nat) ^ i < 2 ^ 32 := Nat.pow_lt_pow_right (by norm_num) hi
  simpa [M] using h

/-- C3: for every x in BitVec[32], `isPowerOfTwoOrZero x` returns 1 if
x = 0 or x = 2 ^ i for some i in [0..31], and returns 0 otherwise. -/
theorem claim_C3_isPowerOfTwoOrZero (x : Nat) :
    isPowerOfTwoOrZero x = if x = 0 ∨ ∃ i, i < 32 ∧ x = 2 ^ i then 1 else 0 := by
  unfold isPowerOfTwoOrZero boolToBv
  rw [foldl_or_eq]
  have key : ((decide (x = 0)) || (List.range 32).any fun i => decide (x = bvConst (2 ^ i))) = true
      ↔ (x = 0 ∨ ∃ i, i < 32 ∧ x = 2 ^ i) := by
    simp only [Bool.or_eq_true, decide_eq_true_eq, List.any_eq_true, List.mem_range]
    constructor
    · rintro (h | ⟨i, hi, hx⟩)
      · exact Or.inl h
      · right
        refine ⟨i, hi, ?_⟩
        rwa [bvConst, Nat.mod_eq_of_lt (pow_lt_M i hi)] at hx
    · rintro (h | ⟨i, hi, hx⟩)
      · exact Or.inl h
      · right
        refine ⟨i, hi, ?_⟩
        rw [bvConst, Nat.mod_eq_of_lt (pow_lt_M i hi)]
        exact hx
  by_cases h : x = 0 ∨ ∃ i, i < 32 ∧ x = 2 ^ i
  · rw [if_pos h, if_pos (key.mpr h)]
  · rw [if_neg h, if_neg (fun hb => h (key.mp hb))]

/- ### Claim C4 -/

/-- C4: operand selection in the symbolic evaluator.  For every slot i
and every integer assignment of r1 and r2, `in1` equals `regs[r1]` when
r1 is in [0..i] and `regs[i]` (the most recent value) otherwise; `in2`
equals `regs[r2]` when r2 is in [0..i] and the immediate exactly when
r2 is out of [0..i]. -/
theorem claim_C4_operand_selection (regs : List Nat) (i : Nat) (r1 r2 : Int) (imm : Nat) :
    (selectIn1 r1 regs i
        = if 0 ≤ r1 ∧ r1 ≤ (i : Int) then regs.getD r1.toNat 0 else regs.getD i 0)
    ∧ (selectIn2 r2 imm regs i
        = if 0 ≤ r2 ∧ r2 ≤ (i : Int) then regs.getD r2.toNat 0 else imm) := by
  constructor
  · rw [selectIn1_eq]
    by_cases h : 0 ≤ r1 ∧ r1 < (i : Int)
    · rw [if_pos h, if_pos (by omega)]
    · rw [if_neg h]
      by_cases h2 : 0 ≤ r1 ∧ r1 ≤ (i : Int)
      · rw [if_pos h2]
        congr 1
        omega
      · rw [if_neg h2]
  · rw [selectIn2_eq]
    by_cases h : 0 ≤ r2 ∧ r2 ≤ (i : Int)
    · rw [if_pos (show 0 ≤ r2 ∧ r2 < (i : Int) + 1 by omega), if_pos h]
    · rw [if_neg (show ¬(0 ≤ r2 ∧ r2 < (i : Int) + 1) by omega), if_neg h]

/- ### Claim C5 -/

theorem bvSub_toInt (a b : Nat) :
    bvSub a b = (((a : Int) - (b : Int)) % ((M : Nat) : Int)).toNat := by
  unfold bvSub
  rw [M_eq]
  omega

/-- C5: opcode dispatch in the symbolic evaluator.  The slot result is
bitwise AND when op = AND, widen(in1 = in2) when op = CMPEQ, and
in1 - in2 modulo 2 ^ 32 for every other integer value of op (SUB is the
fallback, including for all out-of-range opcode values). -/
theorem claim_C5_opcode_dispatch (op : Int) (in1 in2 : Nat) :
    opResult op in1 in2 =
      if op = Opcode.AND then in1 &&& in2
      else if op = Opcode.CMPEQ then (if in1 = in2 then 1 else 0)
      else (((in1 : Int) - (in2 : Int)) % ((M : Nat) : Int)).toNat := by
  unfold opResult boolToBv
  simp only [Opcode.AND, Opcode.CMPEQ, decide_eq_true_eq]
  rw [bvSub_toInt in1 in2]
  split_ifs <;> first | rfl | omega


/- ### Claim C6: the symbolic program builder -/

/-- Decimal representation of a slot index, standing for the string
`std::to_string(i)`: the digit list determines the string and vice
versa, so two slot names are equal iff their digit lists are. -/
def decRepr (i : Nat) : List Nat := if i = 0 then [0] else Nat.digits 10 i

/-- Mirrors `struct SymbolicInsn` at the declaration level: the four
z3 variables of slot `i` are named `<pre>_op`, `<pre>_r1`, `<pre>_r2`
and `<pre>_imm` where `<pre>` is `"op" + std::to_string(i)`, so a slot
declaration is identified by the digits of `i`. -/
structure SymbolicInsn where
  nameDigits : List Nat
deriving DecidableEq, Repr

/-- The only constraint shape `makeInsns` emits:
`z3::ult(imm_slot, bvConst bound)`.  No constraint mentions `op`, `r1`
or `r2`. -/
inductive Constraint where
  | ultImm (slot : Nat) (bound : Nat)
deriving DecidableEq, Repr

/-- Meaning of a builder constraint, given the value of each slot's
`imm` variable: bit-vector unsigned less-than. -/
def Constraint.holds : Constraint → (Nat → Nat) → Prop
  | .ultImm slot bound, immVal => immVal slot < bound

/-- Mirrors `makeInsns` (lines 116-124): each loop iteration `i` pushes
one slot named after `i` and one constraint
`z3::ult(insns.back().imm, bvConst(0xff, c))`. -/
def makeInsns (numInsns : Nat) : List SymbolicInsn × List Constraint :=
  ((List.range numInsns).map (fun i => ⟨decRepr i⟩),
   (List.range numInsns).map (fun i => Constraint.ultImm i (bvConst 0xff)))

theorem ofDigits_decRepr (a : Nat) : Nat.ofDigits 10 (decRepr a) = a := by
  unfold decRepr
  by_cases ha : a = 0
  · subst ha
    simp [Nat.ofDigits]
  · rw [if_neg ha, Nat.ofDigits_digits]

theorem decRepr_injective : Function.Injective decRepr := by
  intro a b h
  have h2 := congrArg (Nat.ofDigits 10) h
  rwa [ofDigits_decRepr, ofDigits_decRepr] at h2

/-- C6 counterexample: the claim says the per-slot constraint is
`imm_i < 0x100`, but the builder emits `imm_i < 0xff`: the bound is
255, not 256, so the immediate value 255 satisfies the claimed
constraint yet violates the emitted one. -/
theorem claim_C6_counterexample :
    (makeInsns 1).2 = [Constraint.ultImm 0 255]
    ∧ ¬ Constraint.holds (Constraint.ultImm 0 255) (fun _ => 0xff)
    ∧ Constraint.holds (Constraint.ultImm 0 0x100) (fun _ => 0xff) := by
  refine ⟨rfl, ?_, ?_⟩
  · simp only [Constraint.holds]
    omega
  · simp only [Constraint.holds]
    omega

/-- C6 as amended: for every N, `makeInsns N` returns exactly N slots
with distinct variable names and exactly one constraint per slot,
namely the bit-vector unsigned comparison `imm_i < 0xff`; no
constraint is placed on `op_i`, `r1_i` or `r2_i`. -/
theorem claim_C6_makeInsns (n : Nat) :
    (makeInsns n).1.length = n
    ∧ ((makeInsns n).1.map SymbolicInsn.nameDigits).Nodup
    ∧ (makeInsns n).2 = (List.range n).map (fun i => Constraint.ultImm i 255) := by
  refine ⟨by simp [makeInsns], ?_, ?_⟩
  · unfold makeInsns
    simp only [List.map_map]
    have hc : (SymbolicInsn.nameDigits ∘ fun i => (⟨decRepr i⟩ : SymbolicInsn)) = decRepr := rfl
    rw [hc]
    exact (List.nodup_range n).map decRepr_injective
  · unfold makeInsns
    simp [bvConst, M_eq]

/- ### Claims C7 and C10: the decoder -/

theorem decodeInsn_model_eq (i : Nat) (m : SlotModel) :
    decodeInsn i m =
      if getIntDefault m.r2 0 < 0 ∨ getIntDefault m.r2 0 > (i : Int) then
        { opcode := if getIntDefault m.op 0 < 0 ∨ getIntDefault m.op 0 > Opcode.LAST
                      then 0 else getIntDefault m.op 0,
          r1 := if getIntDefault m.r1 0 < 0 ∨ getIntDefault m.r1 0 > (i : Int)
                  then (i : Int) else getIntDefault m.r1 0,
          r2 := 0, isImm := true, imm := getUint64Default m.imm 0 }
      else
        { opcode := if getIntDefault m.op 0 < 0 ∨ getIntDefault m.op 0 > Opcode.LAST
                      then 0 else getIntDefault m.op 0,
          r1 := if getIntDefault m.r1 0 < 0 ∨ getIntDefault m.r1 0 > (i : Int)
                  then (i : Int) else getIntDefault m.r1 0,
          r2 := getIntDefault m.r2 0, isImm := false, imm := 0 } := by
  simp only [decodeInsn]

theorem decodeInsn_opcode (i : Nat) (m : SlotModel) :
    (decodeInsn i m).opcode =
      if getIntDefault m.op 0 < 0 ∨ getIntDefault m.op 0 > Opcode.LAST then 0
      else getIntDefault m.op 0 := by
  rw [decodeInsn_model_eq]
  split <;> rfl

theorem decodeInsn_r1 (i : Nat) (m : SlotModel) :
    (decodeInsn i m).r1 =
      if getIntDefault m.r1 0 < 0 ∨ getIntDefault m.r1 0 > (i : Int) then (i : Int)
      else getIntDefault m.r1 0 := by
  rw [decodeInsn_model_eq]
  split <;> rfl

theorem decodeInsn_isImm (i : Nat) (m : SlotModel) :
    (decodeInsn i m).isImm =
      if getIntDefault m.r2 0 < 0 ∨ getIntDefault m.r2 0 > (i : Int) then true
      else false := by
  rw [decodeInsn_model_eq]
  split <;> rfl

theorem decodeInsn_r2 (i : Nat) (m : SlotModel) :
    (decodeInsn i m).r2 =
      if getIntDefault m.r2 0 < 0 ∨ getIntDefault m.r2 0 > (i : Int) then 0
      else getIntDefault m.r2 0 := by
  rw [decodeInsn_model_eq]
  split <;> rfl

theorem decodeInsn_imm (i : Nat) (m : SlotModel) :
    (decodeInsn i m).imm =
      if getIntDefault m.r2 0 < 0 ∨ getIntDefault m.r2 0 > (i : Int)
      then getUint64Default m.imm 0 else 0 := by
  rw [decodeInsn_model_eq]
  split <;> rfl

theorem reconstructAux_getD (slots : List SlotModel) :
    ∀ (k i : Nat), i < slots.length →
      (reconstructAux k slots).getD i default
        = decodeInsn (k + i) (slots.getD i ⟨none, none, none, none⟩) := by
  induction slots with
  | nil =>
    intro k i h
    simp at h
  | cons m rest ih =>
    intro k i h
    cases i with
    | zero => simp [reconstructAux]
    | succ i2 =>
      simp only [reconstructAux, List.getD_cons_succ]
      rw [ih (k + 1) i2 (by simpa using h)]
      congr 1
      omega

/-- C7: decoder totality and tie-breaks.  For every (total or partial)
model and every slot list, `reconstructProgram` succeeds and returns
one concrete instruction per slot; an opcode value outside [0..LAST]
maps to SUB, an r1 value outside [0..i] maps to i (the latest
register), an r2 value outside [0..i] marks the instruction
immediate-using with imm taken from the model, and any variable the
model leaves underdetermined is read as 0. -/
theorem claim_C7_decoder_totality (slots : List SlotModel) (i : Nat) (hi : i < slots.length)
    (m : SlotModel) (hm : slots.getD i ⟨none, none, none, none⟩ = m)
    (insn : Insn) (hinsn : (reconstructProgram slots).getD i default = insn) :
    (reconstructProgram slots).length = slots.length
    ∧ (∀ v, m.op = some v → v < 0 ∨ v > Opcode.LAST → insn.opcode = Opcode.SUB)
    ∧ (∀ v, m.r1 = some v → v < 0 ∨ v > (i : Int) → insn.r1 = (i : Int))
    ∧ (∀ v, m.r2 = some v → v < 0 ∨ v > (i : Int) →
         insn.isImm = true ∧ insn.r2 = 0 ∧ insn.imm = getUint64Default m.imm 0)
    ∧ (m.op = none → insn.opcode = Opcode.SUB)
    ∧ (m.r1 = none → insn.r1 = 0)
    ∧ (m.r2 = none → insn.isImm = false ∧ insn.r2 = 0) := by
  have hlen : (reconstructProgram slots).length = slots.length :=
    reconstructAux_length 0 slots
  have hd : insn = decodeInsn i m := by
    rw [← hinsn, reconstructProgram, reconstructAux_getD slots 0 i hi, Nat.zero_add, hm]
  subst hd
  refine ⟨hlen, ?_, ?_, ?_, ?_, ?_, ?_⟩
  · intro v hv hout
    simp only [Opcode.LAST, Opcode.CMPEQ] at hout
    rw [decodeInsn_opcode]
    simp only [getIntDefault, hv, Option.getD_some, Opcode.LAST, Opcode.CMPEQ]
    rw [if_pos hout]
    rfl
  · intro v hv hout
    rw [decodeInsn_r1]
    simp only [getIntDefault, hv, Option.getD_some]
    rw [if_pos hout]
  · intro v hv hout
    rw [decodeInsn_isImm, decodeInsn_r2, decodeInsn_imm]
    simp only [getIntDefault, hv, Option.getD_some]
    rw [if_pos hout, if_pos hout, if_pos hout]
    exact ⟨rfl, rfl, rfl⟩
  · intro hv
    rw [decodeInsn_opcode]
    simp only [getIntDefault, hv, Option.getD_none, Opcode.LAST, Opcode.CMPEQ]
    rw [if_neg (by omega)]
    rfl
  · intro hv
    rw [decodeInsn_r1]
    simp only [getIntDefault, hv, Option.getD_none]
    rw [if_neg (by omega)]
  · intro hv
    rw [decodeInsn_isImm, decodeInsn_r2]
    simp only [getIntDefault, hv, Option.getD_none]
    rw [if_neg (by omega), if_neg (by omega)]
    exact ⟨rfl, rfl⟩

/-- Witness for C7 at a concrete partial model: slot 0 with op = 5
(out of range), r1 = -1 (out of range) and r2 = 3 (out of range, so
the immediate is used) with imm = 7. -/
theorem claim_C7_decoder_totality_witness :
    (reconstructProgram [⟨some 5, some (-1), some 3, some 7⟩]).length = 1
    ∧ (∀ v, (some (5 : Int)) = some v → v < 0 ∨ v > Opcode.LAST →
        ((reconstructProgram [⟨some 5, some (-1), some 3, some 7⟩]).getD 0 default).opcode
          = Opcode.SUB)
    ∧ (∀ v, (some (3 : Int)) = some v → v < 0 ∨ v > ((0 : Nat) : Int) →
        ((reconstructProgram [⟨some 5, some (-1), some 3, some 7⟩]).getD 0 default).isImm = true
        ∧ ((reconstructProgram [⟨some 5, some (-1), some 3, some 7⟩]).getD 0 default).r2 = 0
        ∧ ((reconstructProgram [⟨some 5, some (-1), some 3, some 7⟩]).getD 0 default).imm
            = getUint64Default (some 7) 0) := by
  have h := claim_C7_decoder_totality [⟨some 5, some (-1), some 3, some 7⟩] 0 (by decide)
    ⟨some 5, some (-1), some 3, some 7⟩ rfl
    ((reconstructProgram [⟨some 5, some (-1), some 3, some 7⟩]).getD 0 default) rfl
  exact ⟨h.1, h.2.1, h.2.2.2.1⟩

/-- C10: well-formedness of decoded programs.  Every program returned
by `reconstructProgram` satisfies, for its i-th instruction: opcode in
{SUB, AND, CMPEQ}, 0 ≤ r1 ≤ i, and either isImm with r2 = 0, or isImm
false with 0 ≤ r2 ≤ i and imm = 0; consequently the abort() branch of
`Insn::toString` is unreachable for any decoded instruction. -/
theorem claim_C10_decoded_wellformed (slots : List SlotModel) (i : Nat)
    (hi : i < slots.length)
    (insn : Insn) (hinsn : (reconstructProgram slots).getD i default = insn) :
    (insn.opcode = Opcode.SUB ∨ insn.opcode = Opcode.AND ∨ insn.opcode = Opcode.CMPEQ)
    ∧ 0 ≤ insn.r1 ∧ insn.r1 ≤ (i : Int)
    ∧ ((insn.isImm = true ∧ insn.r2 = 0)
        ∨ (insn.isImm = false ∧ 0 ≤ insn.r2 ∧ insn.r2 ≤ (i : Int) ∧ insn.imm = 0))
    ∧ (∀ dest, (Insn.toString insn dest).isSome = true) := by
  have hd : insn = decodeInsn i (slots.getD i ⟨none, none, none, none⟩) := by
    rw [← hinsn, reconstructProgram, reconstructAux_getD slots 0 i hi, Nat.zero_add]
  subst hd
  have hopcode : (decodeInsn i (slots.getD i ⟨none, none, none, none⟩)).opcode = 0
      ∨ (decodeInsn i (slots.getD i ⟨none, none, none, none⟩)).opcode = 1
      ∨ (decodeInsn i (slots.getD i ⟨none, none, none, none⟩)).opcode = 2 := by
    rw [decodeInsn_opcode]
    simp only [Opcode.LAST, Opcode.CMPEQ]
    split_ifs <;> omega
  have hr1 : 0 ≤ (decodeInsn i (slots.getD i ⟨none, none, none, none⟩)).r1
      ∧ (decodeInsn i (slots.getD i ⟨none, none, none, none⟩)).r1 ≤ (i : Int) := by
    rw [decodeInsn_r1]
    split_ifs <;> constructor <;> omega
  have himm : ((decodeInsn i (slots.getD i ⟨none, none, none, none⟩)).isImm = true
        ∧ (decodeInsn i (slots.getD i ⟨none, none, none, none⟩)).r2 = 0)
      ∨ ((decodeInsn i (slots.getD i ⟨none, none, none, none⟩)).isImm = false
        ∧ 0 ≤ (decodeInsn i (slots.getD i ⟨none, none, none, none⟩)).r2
        ∧ (decodeInsn i (slots.getD i ⟨none, none, none, none⟩)).r2 ≤ (i : Int)
        ∧ (decodeInsn i (slots.getD i ⟨none, none, none, none⟩)).imm = 0) := by
    rw [decodeInsn_isImm, decodeInsn_r2, decodeInsn_imm]
    by_cases h : getIntDefault (slots.getD i ⟨none, none, none, none⟩).r2 0 < 0
        ∨ getIntDefault (slots.getD i ⟨none, none, none, none⟩).r2 0 > (i : Int)
    · left
      rw [if_pos h, if_pos h]
      exact ⟨rfl, rfl⟩
    · right
      rw [if_neg h, if_neg h, if_neg h]
      exact ⟨rfl, by omega, by omega, rfl⟩
  have hts : ∀ dest,
      (Insn.toString (decodeInsn i (slots.getD i ⟨none, none, none, none⟩)) dest).isSome
        = true := by
    intro dest
    unfold Insn.toString
    simp only [Opcode.SUB, Opcode.AND, Opcode.CMPEQ]
    rcases hopcode with h | h | h <;> rw [h] <;> simp
  exact ⟨hopcode, hr1.1, hr1.2, himm, hts⟩

/-- Witness for C10 at a concrete model (op = 9 is out of range and
decodes to SUB; the instruction always prints). -/
theorem claim_C10_decoded_wellformed_witness :
    (((reconstructProgram [⟨some 9, some 4, some 0, some 3⟩]).getD 0 default).opcode
        = Opcode.SUB
      ∨ ((reconstructProgram [⟨some 9, some 4, some 0, some 3⟩]).getD 0 default).opcode
        = Opcode.AND
      ∨ ((reconstructProgram [⟨some 9, some 4, some 0, some 3⟩]).getD 0 default).opcode
        = Opcode.CMPEQ)
    ∧ (∀ dest,
        (Insn.toString
          ((reconstructProgram [⟨some 9, some 4, some 0, some 3⟩]).getD 0 default)
          dest).isSome = true) := by
  have h := claim_C10_decoded_wellformed [⟨some 9, some 4, some 0, some 3⟩] 0 (by decide)
    ((reconstructProgram [⟨some 9, some 4, some 0, some 3⟩]).getD 0 default) rfl
  exact ⟨h.1, h.2.2.2.2⟩

/- ### Claims C1, C8 and C9: the CEGIS controller -/

/-- The answer one solver `check` call gives: `sat` carries what `main`
reads off the model (the slot assignment, for a synthesis query, and
the numeral value of `x`, for a verification query), `unsat` is the
second expected answer, and `unknown` stands for any other result. -/
inductive QueryAns where
  | sat (σ : List SlotVal) (t : Nat)
  | unsat
  | unknown

/-- The total slot assignment a model induces for the `numInsns` slots
of the current query: any slot variable the model does not determine is
read as 0, matching the decoder defaults. -/
def padSlots (numInsns : Nat) (σ : List SlotVal) : List SlotVal :=
  (List.range numInsns).map (fun i => σ.getD i ⟨0, 0, 0, 0⟩)

/-- Mirrors `testCases.push_back(t)` (line 220). -/
def pushTestCase (testCases : List Nat) (t : Nat) : List Nat :=
  testCases ++ [t]

/-- Mirrors the control flow of `main` (lines 166-228) against a
stream of solver answers, consumed one per `check` call.  The state is
the current instruction count and test-case list; the result is `none`
when the answer stream runs out (the search is still going),
`some (.error msg)` when a z3 exception escapes the loops, and
`some (.ok p)` for the program printed with `return 0` at line 212.
An `unsat` synthesis answer breaks the inner loop and retries with one
more instruction (line 191); a `sat` synthesis answer decodes the
model and runs the verification query, whose `unsat` returns the
decoded program (line 212) and whose `sat` appends the counterexample
and continues the inner loop (line 220); any other check result throws
`z3::exception("unexpected check value")` (lines 189 and 208). -/
def runMain : List QueryAns → Nat → List Nat → Option (Except String (List Insn))
  | [], _, _ => none
  | .unknown :: _, _, _ => some (.error "unexpected check value")
  | .unsat :: rest, numInsns, testCases => runMain rest (numInsns + 1) testCases
  | .sat _ _ :: [], _, _ => none
  | .sat _ _ :: .unknown :: _, _, _ => some (.error "unexpected check value")
  | .sat σ _ :: .unsat :: _, numInsns, _ =>
      some (.ok (reconstructProgram ((padSlots numInsns σ).map SlotVal.toModel)))
  | .sat _ _ :: .sat _ t :: rest, numInsns, testCases =>
      runMain rest numInsns (pushTestCase testCases t)

/-- Models the process exit status of `main`: `return 0` at line 212
after printing the program, and — when a `z3::exception` is thrown —
the catch block at line 223 prints the message and `main` falls
through to `return 0` at line 227. -/
def mainExitCode (r : Except String (List Insn)) : Nat :=
  match r with
  | .ok _ => 0
  | .error _ => 0

/-- Correctness of the solver's answers, for the one answer the
soundness claim depends on: whenever a verification query (the answer
following a `sat` synthesis answer) comes back `unsat`, the concretized
candidate really equals the specification on every 32-bit input. -/
def OracleSound (spec : Nat → Nat) : List QueryAns → Nat → Prop
  | [], _ => True
  | .unknown :: _, _ => True
  | .unsat :: rest, numInsns => OracleSound spec rest (numInsns + 1)
  | .sat _ _ :: [], _ => True
  | .sat _ _ :: .unknown :: _, _ => True
  | .sat σ _ :: .unsat :: _, numInsns =>
      ∀ x, x < M → eval x (padSlots numInsns σ) = spec x
  | .sat _ _ :: .sat _ _ :: rest, numInsns => OracleSound spec rest numInsns

/-- C1: soundness of the CEGIS loop.  Whenever `main` returns a
program (the verification query came back unsat and the program is
printed with exit code 0), that program, evaluated with the concrete
instruction semantics, equals the target specification on every input
in BitVec[32], assuming the solver's answers are correct. -/
theorem claim_C1_soundness (spec : Nat → Nat) (ans : List QueryAns) (n : Nat)
    (tcs : List Nat) (P : List Insn)
    (hsound : OracleSound spec ans n)
    (hrun : runMain ans n tcs = some (Except.ok P)) :
    ∀ x, x < M → runProgram x P = spec x := by
  induction ans, n, tcs using runMain.induct generalizing P with
  | case1 n tcs =>
    simp [runMain] at hrun
  | case2 rest n tcs =>
    simp [runMain] at hrun
  | case3 rest n tcs ih =>
    exact ih P (by simpa [OracleSound] using hsound) (by simpa [runMain] using hrun)
  | case4 σ t n tcs =>
    simp [runMain] at hrun
  | case5 σ t rest n tcs =>
    simp [runMain] at hrun
  | case6 σ t rest n tcs =>
    simp only [runMain, Option.some.injEq, Except.ok.injEq] at hrun
    subst hrun
    intro x hx
    rw [run_reconstruct_eq_eval]
    simpa [OracleSound] using hsound x hx
  | case7 σ t σ2 t2 rest n tcs ih =>
    exact ih P (by simpa [OracleSound] using hsound) (by simpa [runMain] using hrun)

theorem bvSub_self (x : Nat) : bvSub x x = 0 := by
  unfold bvSub
  rw [M_eq]
  omega

theorem eval_zero_slot (x : Nat) : eval x [⟨0, 0, 0, 0⟩] = 0 := by
  have h : eval x [⟨0, 0, 0, 0⟩] = bvSub x x := rfl
  rw [h, bvSub_self]

/-- Witness for C1: a two-answer oracle run (synthesis sat with the
all-zero model, then verification unsat) returns the decoded one-slot
program, which computes the constant-zero specification; instantiated
at x = 5. -/
theorem claim_C1_soundness_witness :
    runProgram 5 (reconstructProgram ((padSlots 1 [⟨0, 0, 0, 0⟩]).map SlotVal.toModel)) = 0 := by
  have h := claim_C1_soundness (fun _ => 0)
    [QueryAns.sat [⟨0, 0, 0, 0⟩] 0, QueryAns.unsat] 1 []
    (reconstructProgram ((padSlots 1 [⟨0, 0, 0, 0⟩]).map SlotVal.toModel))
    (by
      show ∀ x, x < M → eval x (padSlots 1 [⟨0, 0, 0, 0⟩]) = 0
      intro x _
      have hp : padSlots 1 [⟨0, 0, 0, 0⟩] = [⟨0, 0, 0, 0⟩] := rfl
      rw [hp, eval_zero_slot])
    rfl
  exact h 5 (by rw [M_eq]; omega)

/-- C8: test-case set invariant.  Within one inner-loop iteration that
does not return, the test-case sequence grows only by appending the
fresh counterexample (its length goes up by exactly one), the appended
input is a genuine counterexample for the candidate synthesized in
that iteration, and it cannot duplicate any input already present,
because the synthesis model made the candidate agree with the
specification on all of those. -/
theorem claim_C8_testcase_invariant (spec : Nat → Nat) (σ : List SlotVal)
    (testCases : List Nat) (t : Nat)
    (hsyn : ∀ u ∈ testCases, eval u σ = spec u)
    (hce : eval t σ ≠ spec t) :
    pushTestCase testCases t = testCases ++ [t]
    ∧ (pushTestCase testCases t).length = testCases.length + 1
    ∧ t ∉ testCases
    ∧ runProgram t (reconstructProgram (σ.map SlotVal.toModel)) ≠ spec t := by
  refine ⟨rfl, by simp [pushTestCase], ?_, ?_⟩
  · intro hmem
    exact hce (hsyn t hmem)
  · rw [run_reconstruct_eq_eval]
    exact hce

/-- Witness for C8: the all-zero one-slot candidate (which computes 0)
agrees with the identity specification on the accumulated test case 0
and fails on the fresh counterexample 3. -/
theorem claim_C8_testcase_invariant_witness :
    pushTestCase [0] 3 = [0] ++ [3]
    ∧ (pushTestCase [0] 3).length = [0].length + 1
    ∧ (3 : Nat) ∉ [(0 : Nat)]
    ∧ runProgram 3 (reconstructProgram ([(⟨0, 0, 0, 0⟩ : SlotVal)].map SlotVal.toModel))
        ≠ (fun x => x) 3 :=
  claim_C8_testcase_invariant (fun x => x) [⟨0, 0, 0, 0⟩] [0] 3
    (by decide) (by decide)

/-- C9 counterexample: with the very first solver check answering
neither sat nor unsat, the exception escapes the loops and is caught,
but `main` then exits with code 0, not with the claimed distinct exit
code 2. -/
theorem claim_C9_counterexample :
    runMain [QueryAns.unknown] 1 [] = some (Except.error "unexpected check value")
    ∧ mainExitCode (Except.error "unexpected check value") = 0
    ∧ mainExitCode (Except.error "unexpected check value") ≠ 2 :=
  ⟨rfl, rfl, by decide⟩

/-- C9 as amended: when an SMT check returns neither sat nor unsat,
`main` throws `z3::exception("unexpected check value")` — the unknown
result is never treated as unsat and the search does not continue —
and after the catch block prints the message the process exits with
code 0, the same code as success, rather than a distinct code 2. -/
theorem claim_C9_unknown_handling (rest : List QueryAns) (n : Nat) (tcs : List Nat)
    (σ : List SlotVal) (t : Nat) :
    runMain (QueryAns.unknown :: rest) n tcs
        = some (Except.error "unexpected check value")
    ∧ runMain (QueryAns.sat σ t :: QueryAns.unknown :: rest) n tcs
        = some (Except.error "unexpected check value")
    ∧ (∀ r : Except String (List Insn), mainExitCode r = 0) := by
  refine ⟨rfl, rfl, ?_⟩
  intro r
  cases r <;> rfl
